import Mathlib

/-!
# URLTest proxy group (adapters/outbound/urltest.go)

A shallow embedding of the `URLTest` group: the selection state (`proxies`,
`fast`, `once`), the local re-selection `fallback`, the retrying `DialContext`,
the guarded probe cycle `healthCheck` / `HealthCheck` and the constructor
`NewURLTest`.

Conventions of the embedding.

* `C.Proxy` is a Go interface; a candidate is a value of an arbitrary type `P`
  and the answers of its methods `Alive()` and `LastDelay()` are read through a
  `View`.  `LastDelay()` is a `uint16`; it is only ever compared, never used in
  arithmetic, so it is a `Nat`.
* `fast` is an interface value and may be `nil`: it is an `Option P`.
* A Go run-time panic (index out of range, method call on a nil interface) is
  the result `none` of an operation.
* Calls into collaborators that live outside this file (the stream dial of a
  candidate, `groupHealthCheck`, `urlToMetadata`) are parameters.  Operations
  record the collaborator calls they make in a list of `Event`s.
-/

namespace URLTest

/-- Go `error` values met by this file. -/
inductive GoError where
  /-- the package-level sentinel `errAgain` -/
  | errAgain
  /-- the value of `errors.New msg` -/
  | new (msg : String)
  /-- an error produced by a collaborator -/
  | ext (code : Nat)
  deriving DecidableEq, Repr

/-- The answers of the methods `Alive()` and `LastDelay()` of each candidate at
one moment. -/
structure View (P : Type) where
  alive : P → Bool
  lastDelay : P → Nat

/-- The constant `C.URLTest` of the adapter-type enumeration, the only one
this file uses. -/
inductive AdapterType where
  | URLTest
  deriving DecidableEq, Repr

/-- The embedded `*Base`: `name` and `tp`. -/
structure Base where
  name : String
  tp : AdapterType
  deriving DecidableEq, Repr

/-- The struct `URLTest`.  The channel `done` carries no data and is left out. -/
structure Group (P : Type) where
  base : Base
  proxies : List P
  rawURL : String
  fast : Option P
  interval : Int
  once : Int
  deriving DecidableEq, Repr

/-- The struct `URLTestOption`. -/
structure URLTestOption where
  Name : String
  Proxies : List String
  URL : String
  Interval : Int
  deriving DecidableEq, Repr

/-- Calls a group operation makes into its collaborators, in order. -/
inductive Event (P : Type) where
  /-- `p.DialContext(ctx, metadata)` -/
  | dial (p : P)
  /-- `u.fallback()` -/
  | fallback
  /-- `groupHealthCheck(ctx, u.proxies, url, checkAllInGroup, checkSingle)` -/
  | probe (url : String) (checkAllInGroup : Bool)
  deriving DecidableEq, Repr

variable {P Cn Pk M : Type}

/-- The body of the `for _, proxy := range u.proxies[1:]` loop of `fallback`,
run over the remaining candidates with the running `fast` and `min`. -/
def fallbackLoop (v : View P) : P → Nat → List P → P
  | fast, _, [] => fast
  | fast, min, proxy :: rest =>
    if !v.alive proxy then
      fallbackLoop v fast min rest
    else
      let delay := v.lastDelay proxy
      if delay < min then
        fallbackLoop v proxy delay rest
      else
        fallbackLoop v fast min rest

/-- The method `fallback`: `u.proxies[0]` panics on an empty roster. -/
def fallback (v : View P) (u : Group P) : Option (Group P) :=
  match u.proxies with
  | [] => none
  | fast :: rest =>
    some { u with fast := some (fallbackLoop v fast (v.lastDelay fast) rest) }

/-- The method `Now`: the name of `fast` (a nil `fast` panics). -/
def Now (name : P → String) (u : Group P) : Option String :=
  match u.fast with
  | none => none
  | some fast => some (name fast)

/-- What `DialContext` has in hand at one point of its loop: the named results
`c` and `err`, the group, and the collaborator calls made so far. -/
structure DialOut (P Cn : Type) where
  c : Option Cn
  err : Option GoError
  u : Group P
  trace : List (Event P)

/-- The loop `for i := 0; i < 3; i++` of `DialContext`, entered at index `i` with
`n` iterations left.  `dial i p` is the result of `p.DialContext` at attempt `i`
(a failed dial hands back no connection), `view i` is what the candidates report
when the fallback following attempt `i` runs, `appendToChains c u` is the
connection after `c.AppendToChains(u)`. -/
def dialLoop (view : Nat → View P) (dial : Nat → P → Except GoError Cn)
    (appendToChains : Cn → Group P → Cn) :
    Nat → Nat → DialOut P Cn → Option (DialOut P Cn)
  | _, 0, acc => some acc
  | i, n + 1, acc =>
    match acc.u.fast with
    | none => none
    | some fast =>
      match dial i fast with
      | .ok c =>
        some { c := some (appendToChains c acc.u), err := none, u := acc.u,
               trace := acc.trace ++ [Event.dial fast] }
      | .error err =>
        match fallback (view i) acc.u with
        | none => none
        | some u1 =>
          dialLoop view dial appendToChains (i + 1) n
            { c := none, err := some err, u := u1,
              trace := acc.trace ++ [Event.dial fast, Event.fallback] }

/-- The method `DialContext`. -/
def DialContext (view : Nat → View P) (dial : Nat → P → Except GoError Cn)
    (appendToChains : Cn → Group P → Cn) (u : Group P) : Option (DialOut P Cn) :=
  dialLoop view dial appendToChains 0 3 { c := none, err := none, u := u, trace := [] }

/-- The method `DialUDP`: one attempt through `fast`, tagged on success. -/
def DialUDP (dialUDP : P → Except GoError Pk) (appendToChains : Pk → Group P → Pk)
    (u : Group P) : Option (Except GoError Pk) :=
  match u.fast with
  | none => none
  | some fast =>
    match dialUDP fast with
    | .ok pc => some (.ok (appendToChains pc u))
    | .error err => some (.error err)

/-- The method `SupportUDP`. -/
def SupportUDP (supportUDP : P → Bool) (u : Group P) : Option Bool :=
  match u.fast with
  | none => none
  | some fast => some (supportUDP fast)

/-- The map `MarshalJSON` serialises. -/
structure Status where
  type : String
  now : String
  all : List String
  deriving DecidableEq, Repr

/-- The method `MarshalJSON`, up to the serialisation of the map. -/
def MarshalJSON (name : P → String) (typeString : AdapterType → String) (u : Group P) :
    Option Status :=
  match Now name u with
  | none => none
  | some now => some { type := typeString u.base.tp, now := now, all := u.proxies.map name }

/-- The call `atomic.CompareAndSwapInt32(&u.once, 0, 1)`: whether it swapped, and
the group afterwards. -/
def compareAndSwapOnce (u : Group P) : Bool × Group P :=
  if u.once = 0 then (true, { u with once := 1 }) else (false, u)

/-- The deferred `atomic.StoreInt32(&u.once, 0)`. -/
def storeOnce (u : Group P) : Group P :=
  { u with once := 0 }

/-- What `healthCheck` returns, the group afterwards and the collaborator calls
made. -/
structure ProbeOut (P : Type) where
  result : Except GoError (Option P)
  u : Group P
  trace : List (Event P)

/-- The method `healthCheck`, run without interruption.  `groupHealthCheck`
yields an error or a value whose assertion to `C.Proxy` is a candidate or nil. -/
def healthCheck (groupHealthCheck : List P → String → Bool → Except GoError (Option P))
    (url : String) (checkAllInGroup : Bool) (u : Group P) : ProbeOut P :=
  if (compareAndSwapOnce u).1 then
    let u1 := (compareAndSwapOnce u).2
    match groupHealthCheck u1.proxies url checkAllInGroup with
    | .ok fast =>
      { result := .ok fast, u := storeOnce { u1 with fast := fast },
        trace := [Event.probe url checkAllInGroup] }
    | .error err =>
      { result := .error err, u := storeOnce u1,
        trace := [Event.probe url checkAllInGroup] }
  else
    { result := .error GoError.errAgain, u := (compareAndSwapOnce u).2, trace := [] }

/-- What `HealthCheck` returns, with the group afterwards and the calls made. -/
structure CheckOut (P : Type) where
  delay : Nat
  err : Option GoError
  u : Group P
  trace : List (Event P)

/-- The method `HealthCheck`; `view` is what the candidates report once the
probe cycle is over.  `fast.LastDelay()` on a nil `fast` panics. -/
def HealthCheck (groupHealthCheck : List P → String → Bool → Except GoError (Option P))
    (view : View P) (url : String) (u : Group P) : Option (CheckOut P) :=
  let url1 := if url = "" then u.rawURL else url
  let out := healthCheck groupHealthCheck url1 false u
  match out.result with
  | .error err => some { delay := 0, err := some err, u := out.u, trace := out.trace }
  | .ok none => none
  | .ok (some fast) =>
    some { delay := view.lastDelay fast, err := none, u := out.u, trace := out.trace }

/-- Two's-complement reduction to `int64`, the arithmetic of `time.Duration`. -/
def wrapInt64 (x : Int) : Int :=
  (x + 9223372036854775808) % 18446744073709551616 - 9223372036854775808

/-- The constant `time.Second`, in nanoseconds. -/
def Second : Int := 1000000000

/-- The function `NewURLTest`, up to the start of the goroutine `loop`. -/
def NewURLTest (urlToMetadata : String → Except GoError M) (option : URLTestOption)
    (proxies : List P) : Except GoError (Group P) :=
  match urlToMetadata option.URL with
  | .error err => .error err
  | .ok _ =>
    if proxies.length < 1 then
      .error (GoError.new "The number of proxies cannot be 0")
    else
      .ok { base := { name := option.Name, tp := AdapterType.URLTest },
            proxies := proxies,
            rawURL := option.URL,
            fast := proxies[0]?,
            interval := wrapInt64 (option.Interval * Second),
            once := 0 }

/-- The call `time.NewTicker(u.interval)` that opens `loop`: it panics unless the
period is strictly positive. -/
def loopTicker (u : Group P) : Option Int :=
  if 0 < u.interval then some u.interval else none

/-- The candidates dialled in a trace, in order. -/
def dialsOf : List (Event P) → List P
  | [] => []
  | Event.dial p :: rest => p :: dialsOf rest
  | _ :: rest => dialsOf rest

/-- The number of runs of `fallback` in a trace. -/
def fallbacksOf : List (Event P) → Nat
  | [] => 0
  | Event.fallback :: rest => fallbacksOf rest + 1
  | _ :: rest => fallbacksOf rest

/-! ## Interleaved execution

`healthCheck` is started with `go` by `loop` and may be called by any number of
callers of `HealthCheck`, so its steps interleave.  A call is cut at its accesses
to the shared group: the compare-and-swap, the return of `groupHealthCheck`, the
write of `u.fast`, the deferred store. -/

/-- Where one call of `healthCheck` stands. -/
inductive Stage (P : Type) where
  /-- called, the compare-and-swap not yet executed -/
  | entry (url : String) (checkAllInGroup : Bool)
  /-- the swap succeeded; inside `groupHealthCheck` -/
  | probing (url : String) (checkAllInGroup : Bool)
  /-- `groupHealthCheck` has returned `r` -/
  | probed (r : Except GoError (Option P))
  /-- results fixed; the deferred store is still to run -/
  | leaving (r : Except GoError (Option P))
  /-- the call has returned `r` -/
  | returned (r : Except GoError (Option P))

/-- Whether a call is between its successful swap and its deferred store. -/
def Stage.holding : Stage P → Bool
  | .probing _ _ => true
  | .probed _ => true
  | .leaving _ => true
  | _ => false

/-- Whether a call is inside `groupHealthCheck`. -/
def Stage.inCollaborator : Stage P → Bool
  | .probing _ _ => true
  | _ => false

/-- The next step of a call by itself, on the shared group.  A call inside
`groupHealthCheck` waits for it to return. -/
def advanceCall (u : Group P) : Stage P → Group P × Stage P
  | .entry url checkAllInGroup =>
    if (compareAndSwapOnce u).1 then
      ((compareAndSwapOnce u).2, .probing url checkAllInGroup)
    else
      ((compareAndSwapOnce u).2, .returned (.error GoError.errAgain))
  | .probing url checkAllInGroup => (u, .probing url checkAllInGroup)
  | .probed (.ok fast) => ({ u with fast := fast }, .leaving (.ok fast))
  | .probed (.error err) => (u, .leaving (.error err))
  | .leaving r => (storeOnce u, .returned r)
  | .returned r => (u, .returned r)

/-- The group together with the calls of `healthCheck` made so far. -/
structure Sys (P : Type) where
  u : Group P
  calls : List (Stage P)

/-- What can happen next to a group. -/
inductive Action (P Cn Pk : Type) where
  /-- a caller enters `HealthCheck(url)`, which calls `healthCheck`; what it
  does with the result afterwards does not touch the group -/
  | HealthCheck (url : String)
  /-- `loop` runs `go u.healthCheck(ctx, u.rawURL, false)` -/
  | tick
  /-- call number `i` of `healthCheck` takes its next step -/
  | advance (i : Nat)
  /-- `groupHealthCheck` returns `r` to call number `i` -/
  | probeReturns (i : Nat) (r : Except GoError (Option P))
  /-- `fallback()` runs -/
  | fallback (v : View P)
  /-- a `DialContext` runs, here in one piece; its only writes are those of
  the fallbacks it runs -/
  | DialContext (view : Nat → View P) (dial : Nat → P → Except GoError Cn)
      (appendToChains : Cn → Group P → Cn)
  /-- a `DialUDP` runs -/
  | DialUDP (dialUDP : P → Except GoError Pk) (appendToChains : Pk → Group P → Pk)
  /-- a `SupportUDP` runs -/
  | SupportUDP (supportUDP : P → Bool)
  /-- a `MarshalJSON` runs -/
  | MarshalJSON (name : P → String) (typeString : AdapterType → String)

/-- One action; `none` when it panics. -/
def Sys.step (s : Sys P) : Action P Cn Pk → Option (Sys P)
  | .HealthCheck url =>
    some { s with calls := s.calls ++ [.entry (if url = "" then s.u.rawURL else url) false] }
  | .tick => some { s with calls := s.calls ++ [.entry s.u.rawURL false] }
  | .advance i =>
    match s.calls[i]? with
    | none => some s
    | some st => some { u := (advanceCall s.u st).1, calls := s.calls.set i (advanceCall s.u st).2 }
  | .probeReturns i r =>
    match s.calls[i]? with
    | some (.probing _ _) => some { s with calls := s.calls.set i (.probed r) }
    | _ => some s
  | .fallback v =>
    match fallback v s.u with
    | none => none
    | some u1 => some { s with u := u1 }
  | .DialContext view dial appendToChains =>
    match DialContext view dial appendToChains s.u with
    | none => none
    | some out => some { s with u := out.u }
  | .DialUDP dialUDP appendToChains =>
    match DialUDP dialUDP appendToChains s.u with
    | none => none
    | some _ => some s
  | .SupportUDP supportUDP =>
    match SupportUDP supportUDP s.u with
    | none => none
    | some _ => some s
  | .MarshalJSON name typeString =>
    match MarshalJSON name typeString s.u with
    | none => none
    | some _ => some s

/-- A sequence of actions, stopping at the first panic. -/
def Sys.run : List (Action P Cn Pk) → Sys P → Option (Sys P)
  | [], s => some s
  | a :: rest, s =>
    match s.step a with
    | none => none
    | some s1 => Sys.run rest s1

/-- The number of calls between their successful swap and their deferred store. -/
def Sys.holders (s : Sys P) : Nat :=
  s.calls.countP Stage.holding

/-- The number of calls inside `groupHealthCheck`. -/
def Sys.inProbe (s : Sys P) : Nat :=
  s.calls.countP Stage.inCollaborator

/-- The flag `once` counts the calls between swap and store: it is 0 with no
such call, or 1 with exactly one. -/
def Sys.flagMatches (s : Sys P) : Prop :=
  (s.u.once = 0 ∧ s.holders = 0) ∨ (s.u.once = 1 ∧ s.holders = 1)

/-- The roster is `roster`, `fast` is one of its members, and every answer of
`groupHealthCheck` waiting to be written to `fast` is one of its members. -/
def Sys.inRoster (roster : List P) (s : Sys P) : Prop :=
  s.u.proxies = roster ∧ (∃ p ∈ roster, s.u.fast = some p) ∧
    ∀ r, Stage.probed (.ok r) ∈ s.calls → ∃ p ∈ roster, r = some p

/-- The action is not a return of `groupHealthCheck` with something other than
one of the candidates of `roster`. -/
def Action.returnsCandidate (roster : List P) : Action P Cn Pk → Prop
  | .probeReturns _ (.ok r) => ∃ p ∈ roster, r = some p
  | _ => True

/-! ## Concrete groups

Candidates are numbered: `0` is A, `1` is B, `2` is C. -/

/-- A group in the state `NewURLTest` or a later operation leaves it in, with the
given roster and `fast`. -/
def sampleGroup (roster : List Nat) (fast : Option Nat) : Group Nat :=
  { base := { name := "auto", tp := AdapterType.URLTest },
    proxies := roster,
    rawURL := "http://www.gstatic.com/generate_204",
    fast := fast,
    interval := 300000000000,
    once := 0 }

/-- A is dead and reports the delay `d`, B is alive at 50, C is alive at 20. -/
def viewDeadA (d : Nat) : View Nat :=
  { alive := fun p => p != 0,
    lastDelay := fun p => if p = 0 then d else if p = 1 then 50 else 20 }

/-- A, B and C are all dead; A reports 300, B 200, C 100. -/
def viewAllDead : View Nat :=
  { alive := fun _ => false,
    lastDelay := fun p => if p = 0 then 300 else if p = 1 then 200 else 100 }

/-- A is dead, B is alive, and both report the largest delay 65535. -/
def viewTie : View Nat :=
  { alive := fun p => p != 0,
    lastDelay := fun _ => 65535 }

/-- Stream dials that fail at the attempts 0 and 1 and succeed at attempt 2,
whatever the candidate. -/
def sampleDial : Nat → Nat → Except GoError (List String) :=
  fun i _ => if i < 2 then .error (GoError.ext i) else .ok []

/-- A connection is its chain of adapter names; `AppendToChains` adds the name
of the group. -/
def sampleAppend : List String → Group Nat → List String :=
  fun c u => c ++ [u.base.name]

/-- A probe collaborator that returns the last candidate it was handed. -/
def sampleProbe : List Nat → String → Bool → Except GoError (Option Nat) :=
  fun roster _ _ => .ok roster.getLast?

/-- A probe collaborator that finds no candidate reachable. -/
def sampleProbeFails : List Nat → String → Bool → Except GoError (Option Nat) :=
  fun _ _ _ => .error (GoError.ext 7)

/-- A URL validator that rejects the empty string only. -/
def sampleValidator : String → Except GoError Unit :=
  fun url => if url = "" then .error (GoError.ext 1) else .ok ()

/-- Construction options with the given test URL and interval. -/
def sampleOption (url : String) (interval : Int) : URLTestOption :=
  { Name := "auto", Proxies := ["A", "B", "C"], URL := url, Interval := interval }

/-- Three probe cycles started by `loop`; the second one reaches the
compare-and-swap first, then the first and the third. -/
def sampleRace : List (Action Nat (List String) Unit) :=
  [Action.tick, Action.tick, Action.tick, Action.advance 1, Action.advance 0, Action.advance 2]

/-- Where `sampleRace` ends: the second call is inside the collaborator, the
other two have returned `errAgain`. -/
def sampleRaceEnd : Sys Nat :=
  { u := { sampleGroup [0, 1, 2] (some 0) with once := 1 },
    calls := [Stage.returned (.error GoError.errAgain),
              Stage.probing "http://www.gstatic.com/generate_204" false,
              Stage.returned (.error GoError.errAgain)] }

/-- A life of a group: a probe cycle acquires the flag, a `HealthCheck` arriving
meanwhile is turned away, the cycle returns C, writes it and releases the flag;
then a fallback, a `DialContext`, and the read-only operations. -/
def sampleLife : List (Action Nat (List String) Unit) :=
  [Action.tick, Action.advance 0, Action.HealthCheck "", Action.advance 1,
   Action.probeReturns 0 (.ok (some 2)), Action.advance 0, Action.advance 0,
   Action.fallback (viewDeadA 100),
   Action.DialContext (fun _ => viewDeadA 100) sampleDial sampleAppend,
   Action.SupportUDP (fun _ => true),
   Action.MarshalJSON (fun p => toString p) (fun _ => "URLTest")]

/-! ## The local re-selection `fallback` -/

/-- One iteration of the loop of `fallback`: the candidate at hand replaces the
running choice exactly when it reports alive and its delay is strictly below the
running minimum. -/
lemma fallbackLoop_cons (v : View P) (fast : P) (min : Nat) (proxy : P) (rest : List P) :
    fallbackLoop v fast min (proxy :: rest) =
      if v.alive proxy = true ∧ v.lastDelay proxy < min then
        fallbackLoop v proxy (v.lastDelay proxy) rest
      else fallbackLoop v fast min rest := by
  cases ha : v.alive proxy <;> by_cases hd : v.lastDelay proxy < min <;>
    simp [fallbackLoop, ha, hd]

/-- The loop of `fallback` started with `min = fast.LastDelay()`: either the
seed survives and no alive candidate of the scanned part is strictly faster, or
the result is the earliest alive candidate of least delay in the scanned part
and is strictly faster than the seed. -/
lemma fallbackLoop_spec (v : View P) (rest : List P) (fast : P) :
    (fallbackLoop v fast (v.lastDelay fast) rest = fast ∧
        ∀ (i : Nat) (q : P), rest[i]? = some q → v.alive q = true → v.lastDelay fast ≤ v.lastDelay q) ∨
    (∃ j r, rest[j]? = some r ∧ fallbackLoop v fast (v.lastDelay fast) rest = r ∧
        v.alive r = true ∧ v.lastDelay r < v.lastDelay fast ∧
        (∀ (i : Nat) (q : P), rest[i]? = some q → v.alive q = true → v.lastDelay r ≤ v.lastDelay q) ∧
        (∀ (i : Nat) (q : P), rest[i]? = some q → v.alive q = true → i < j →
          v.lastDelay r < v.lastDelay q)) := by
  induction rest generalizing fast with
  | nil => left; simp [fallbackLoop]
  | cons p ps ih =>
    rw [fallbackLoop_cons]
    by_cases hc : v.alive p = true ∧ v.lastDelay p < v.lastDelay fast
    · rw [if_pos hc]
      right
      rcases ih p with ⟨hr, hmin⟩ | ⟨j, r, hj, hr, ha, hlt, hmin, hfirst⟩
      · refine ⟨0, p, by simp, hr, hc.1, hc.2, ?_, ?_⟩
        · intro i q hi hq
          cases i with
          | zero => simp at hi; subst hi; exact le_refl _
          | succ i => exact hmin i q (by simpa using hi) hq
        · intro i q _ _ hlt0
          exact absurd hlt0 (Nat.not_lt_zero i)
      · refine ⟨j + 1, r, by simpa using hj, hr, ha, lt_trans hlt hc.2, ?_, ?_⟩
        · intro i q hi hq
          cases i with
          | zero => simp at hi; subst hi; exact le_of_lt hlt
          | succ i => exact hmin i q (by simpa using hi) hq
        · intro i q hi hq hij
          cases i with
          | zero => simp at hi; subst hi; exact hlt
          | succ i => exact hfirst i q (by simpa using hi) hq (by omega)
    · rw [if_neg hc]
      have hp : v.alive p = true → v.lastDelay fast ≤ v.lastDelay p := by
        intro ha
        by_contra hlt
        exact hc ⟨ha, by omega⟩
      rcases ih fast with ⟨hr, hmin⟩ | ⟨j, r, hj, hr, ha, hlt, hmin, hfirst⟩
      · left
        refine ⟨hr, ?_⟩
        intro i q hi hq
        cases i with
        | zero => simp at hi; subst hi; exact hp hq
        | succ i => exact hmin i q (by simpa using hi) hq
      · right
        refine ⟨j + 1, r, by simpa using hj, hr, ha, hlt, ?_, ?_⟩
        · intro i q hi hq
          cases i with
          | zero => simp at hi; subst hi; exact le_trans (le_of_lt hlt) (hp hq)
          | succ i => exact hmin i q (by simpa using hi) hq
        · intro i q hi hq hij
          cases i with
          | zero => simp at hi; subst hi; exact lt_of_lt_of_le hlt (hp hq)
          | succ i => exact hfirst i q (by simpa using hi) hq (by omega)

/-- The result of the loop of `fallback` is the seed or one of the scanned
candidates. -/
lemma fallbackLoop_mem (v : View P) (rest : List P) (fast : P) (min : Nat) :
    fallbackLoop v fast min rest = fast ∨ fallbackLoop v fast min rest ∈ rest := by
  induction rest generalizing fast min with
  | nil => left; simp [fallbackLoop]
  | cons p ps ih =>
    rw [fallbackLoop_cons]
    split
    · rcases ih p (v.lastDelay p) with h | h
      · right; rw [h]; exact List.mem_cons_self _ _
      · right; exact List.mem_cons_of_mem _ h
    · rcases ih fast min with h | h
      · left; exact h
      · right; exact List.mem_cons_of_mem _ h

/-- On a non-empty roster `fallback` does not panic, changes only `fast`, and
leaves in `fast` a member of the roster. -/
lemma fallback_some (v : View P) (u : Group P) (hne : u.proxies ≠ []) :
    ∃ f, f ∈ u.proxies ∧ fallback v u = some { u with fast := some f } := by
  cases hp : u.proxies with
  | nil => exact absurd hp hne
  | cons p0 rest =>
    refine ⟨fallbackLoop v p0 (v.lastDelay p0) rest, ?_, ?_⟩
    · rcases fallbackLoop_mem v rest p0 (v.lastDelay p0) with h | h
      · rw [h]; exact List.mem_cons_self _ _
      · exact List.mem_cons_of_mem _ h
    · simp [fallback, hp]

/-- C9: on a non-empty roster `fallback` sets `fast` to the candidate at the
earliest position `j` of least `lastDelay` among position 0 (alive or not) and
the alive candidates at later positions, and changes nothing else; in the loop a
later candidate replaces the running choice only when it is alive and strictly
faster than the running minimum; hence when `proxies[0]` is alive the result is
the earliest alive candidate of least `lastDelay`. -/
theorem fallback_earliest_min_of_head_and_alive (v : View P) (u : Group P)
    (hne : u.proxies ≠ []) :
    (∃ j f, u.proxies[j]? = some f ∧ fallback v u = some { u with fast := some f } ∧
      (j = 0 ∨ v.alive f = true) ∧
      (∀ (i : Nat) (q : P), u.proxies[i]? = some q → (i = 0 ∨ v.alive q = true) →
        v.lastDelay f ≤ v.lastDelay q) ∧
      (∀ (i : Nat) (q : P), u.proxies[i]? = some q → (i = 0 ∨ v.alive q = true) → i < j →
        v.lastDelay f < v.lastDelay q) ∧
      (∀ p0, u.proxies[0]? = some p0 → v.alive p0 = true →
        v.alive f = true ∧
        (∀ (i : Nat) (q : P), u.proxies[i]? = some q → v.alive q = true →
          v.lastDelay f ≤ v.lastDelay q) ∧
        (∀ (i : Nat) (q : P), u.proxies[i]? = some q → v.alive q = true → i < j →
          v.lastDelay f < v.lastDelay q))) ∧
    (∀ (fast : P) (min : Nat) (proxy : P) (rest : List P),
      fallbackLoop v fast min (proxy :: rest) =
        if v.alive proxy = true ∧ v.lastDelay proxy < min then
          fallbackLoop v proxy (v.lastDelay proxy) rest
        else fallbackLoop v fast min rest) := by
  refine ⟨?_, fallbackLoop_cons v⟩
  cases hp : u.proxies with
  | nil => exact absurd hp hne
  | cons p0 rest =>
    rcases fallbackLoop_spec v rest p0 with ⟨hr, hmin⟩ | ⟨j, r, hj, hr, ha, hlt, hmin, hfirst⟩
    · refine ⟨0, p0, by simp, by simp [fallback, hp, hr], Or.inl rfl, ?_, ?_, ?_⟩
      · intro i q hi he
        cases i with
        | zero => simp at hi; subst hi; exact le_refl _
        | succ i =>
          rcases he with he | he
          · omega
          · exact hmin i q (by simpa using hi) he
      · intro i q _ _ hlt0
        exact absurd hlt0 (Nat.not_lt_zero i)
      · intro q0 h0 ha0
        simp at h0; subst h0
        refine ⟨ha0, ?_, ?_⟩
        · intro i q hi hq
          cases i with
          | zero => simp at hi; subst hi; exact le_refl _
          | succ i => exact hmin i q (by simpa using hi) hq
        · intro i q _ _ hlt0
          exact absurd hlt0 (Nat.not_lt_zero i)
    · have hall : ∀ (i : Nat) (q : P), (p0 :: rest)[i]? = some q → (i = 0 ∨ v.alive q = true) →
          v.lastDelay r ≤ v.lastDelay q := by
        intro i q hi he
        cases i with
        | zero => simp at hi; subst hi; exact le_of_lt hlt
        | succ i =>
          rcases he with he | he
          · omega
          · exact hmin i q (by simpa using hi) he
      have hearly : ∀ (i : Nat) (q : P), (p0 :: rest)[i]? = some q →
          (i = 0 ∨ v.alive q = true) → i < j + 1 → v.lastDelay r < v.lastDelay q := by
        intro i q hi he hij
        cases i with
        | zero => simp at hi; subst hi; exact hlt
        | succ i =>
          rcases he with he | he
          · omega
          · exact hfirst i q (by simpa using hi) he (by omega)
      refine ⟨j + 1, r, by simpa using hj, by simp [fallback, hp, hr], Or.inr ha,
        hall, hearly, ?_⟩
      intro q0 _ _
      exact ⟨ha, fun i q hi hq => hall i q hi (Or.inr hq),
        fun i q hi hq hij => hearly i q hi (Or.inr hq) hij⟩

/-- C9, at the roster A (dead, 10), B (alive, 50), C (alive, 20). -/
theorem fallback_earliest_min_of_head_and_alive_witness :
    (sampleGroup [0, 1, 2] (some 1)).proxies ≠ [] ∧
    ((∃ j f, (sampleGroup [0, 1, 2] (some 1)).proxies[j]? = some f ∧
      fallback (viewDeadA 10) (sampleGroup [0, 1, 2] (some 1)) =
        some { sampleGroup [0, 1, 2] (some 1) with fast := some f } ∧
      (j = 0 ∨ (viewDeadA 10).alive f = true) ∧
      (∀ (i : Nat) (q : Nat), (sampleGroup [0, 1, 2] (some 1)).proxies[i]? = some q →
        (i = 0 ∨ (viewDeadA 10).alive q = true) →
        (viewDeadA 10).lastDelay f ≤ (viewDeadA 10).lastDelay q) ∧
      (∀ (i : Nat) (q : Nat), (sampleGroup [0, 1, 2] (some 1)).proxies[i]? = some q →
        (i = 0 ∨ (viewDeadA 10).alive q = true) → i < j →
        (viewDeadA 10).lastDelay f < (viewDeadA 10).lastDelay q) ∧
      (∀ p0, (sampleGroup [0, 1, 2] (some 1)).proxies[0]? = some p0 →
        (viewDeadA 10).alive p0 = true →
        (viewDeadA 10).alive f = true ∧
        (∀ (i : Nat) (q : Nat), (sampleGroup [0, 1, 2] (some 1)).proxies[i]? = some q →
          (viewDeadA 10).alive q = true →
          (viewDeadA 10).lastDelay f ≤ (viewDeadA 10).lastDelay q) ∧
        (∀ (i : Nat) (q : Nat), (sampleGroup [0, 1, 2] (some 1)).proxies[i]? = some q →
          (viewDeadA 10).alive q = true → i < j →
          (viewDeadA 10).lastDelay f < (viewDeadA 10).lastDelay q))) ∧
    (∀ (fast : Nat) (min : Nat) (proxy : Nat) (rest : List Nat),
      fallbackLoop (viewDeadA 10) fast min (proxy :: rest) =
        if (viewDeadA 10).alive proxy = true ∧ (viewDeadA 10).lastDelay proxy < min then
          fallbackLoop (viewDeadA 10) proxy ((viewDeadA 10).lastDelay proxy) rest
        else fallbackLoop (viewDeadA 10) fast min rest)) :=
  ⟨by decide,
    fallback_earliest_min_of_head_and_alive (viewDeadA 10) (sampleGroup [0, 1, 2] (some 1))
      (by decide)⟩

/-- C1, evaluated: with A dead but reporting 10 ms ahead of B (alive, 50 ms) and
C (alive, 20 ms), `fallback` selects the dead A, not the fastest alive C, and so
for every delay up to 20 ms that A reports; with A dead and B alive both
reporting 65535, it selects the dead A although B is alive.  With all three
dead it selects A. -/
theorem fallback_dead_head_selected :
    fallback (viewDeadA 10) (sampleGroup [0, 1, 2] (some 1)) =
      some (sampleGroup [0, 1, 2] (some 0)) ∧
    fallback (viewDeadA 10) (sampleGroup [0, 1, 2] (some 1)) ≠
      some (sampleGroup [0, 1, 2] (some 2)) ∧
    (∀ d, d ≤ 20 → fallback (viewDeadA d) (sampleGroup [0, 1, 2] (some 1)) =
      some (sampleGroup [0, 1, 2] (some 0))) ∧
    (viewTie.alive 0 = false ∧ viewTie.alive 1 = true ∧
      fallback viewTie (sampleGroup [0, 1] (some 1)) = some (sampleGroup [0, 1] (some 0))) ∧
    fallback viewAllDead (sampleGroup [0, 1, 2] (some 1)) =
      some (sampleGroup [0, 1, 2] (some 0)) := by
  refine ⟨by decide, by decide, ?_, by decide, by decide⟩
  intro d hd
  have h1 : ¬ (50 < d) := by omega
  have h2 : ¬ (20 < d) := by omega
  simp [fallback, sampleGroup, fallbackLoop, viewDeadA, h1, h2]

/-! ## The retrying `DialContext` -/

/-- The four ways through `DialContext` on a group with a non-empty roster and a
non-nil `fast`: success at the first, second or third attempt, or three
failures.  Each case gives the dial results met, the groups the fallbacks
produced, and the whole outcome. -/
lemma DialContext_cases (view : Nat → View P) (dial : Nat → P → Except GoError Cn)
    (appendToChains : Cn → Group P → Cn) (u : Group P) (f0 : P)
    (hne : u.proxies ≠ []) (hf : u.fast = some f0) :
    (∃ c, dial 0 f0 = .ok c ∧
      DialContext view dial appendToChains u =
        some { c := some (appendToChains c u), err := none, u := u,
               trace := [Event.dial f0] }) ∨
    (∃ e0 u1 f1 c, dial 0 f0 = .error e0 ∧
      fallback (view 0) u = some u1 ∧ u1.fast = some f1 ∧ dial 1 f1 = .ok c ∧
      DialContext view dial appendToChains u =
        some { c := some (appendToChains c u1), err := none, u := u1,
               trace := [Event.dial f0, Event.fallback, Event.dial f1] }) ∨
    (∃ e0 u1 f1 e1 u2 f2 c, dial 0 f0 = .error e0 ∧
      fallback (view 0) u = some u1 ∧ u1.fast = some f1 ∧ dial 1 f1 = .error e1 ∧
      fallback (view 1) u1 = some u2 ∧ u2.fast = some f2 ∧ dial 2 f2 = .ok c ∧
      DialContext view dial appendToChains u =
        some { c := some (appendToChains c u2), err := none, u := u2,
               trace := [Event.dial f0, Event.fallback, Event.dial f1, Event.fallback,
                         Event.dial f2] }) ∨
    (∃ e0 u1 f1 e1 u2 f2 e2 u3, dial 0 f0 = .error e0 ∧
      fallback (view 0) u = some u1 ∧ u1.fast = some f1 ∧ dial 1 f1 = .error e1 ∧
      fallback (view 1) u1 = some u2 ∧ u2.fast = some f2 ∧ dial 2 f2 = .error e2 ∧
      fallback (view 2) u2 = some u3 ∧
      DialContext view dial appendToChains u =
        some { c := none, err := some e2, u := u3,
               trace := [Event.dial f0, Event.fallback, Event.dial f1, Event.fallback,
                         Event.dial f2, Event.fallback] }) := by
  cases h0 : dial 0 f0 with
  | ok c =>
    left
    exact ⟨c, rfl, by simp [DialContext, dialLoop, hf, h0]⟩
  | error e0 =>
    right
    obtain ⟨f1, -, hu1⟩ := fallback_some (view 0) u hne
    have hne1 : ({ u with fast := some f1 } : Group P).proxies ≠ [] := hne
    cases h1 : dial 1 f1 with
    | ok c =>
      left
      exact ⟨e0, _, f1, c, rfl, hu1, rfl, h1, by simp [DialContext, dialLoop, hf, h0, hu1, h1]⟩
    | error e1 =>
      right
      obtain ⟨f2, -, hu2⟩ := fallback_some (view 1) { u with fast := some f1 } hne1
      have hne2 : ({ ({ u with fast := some f1 } : Group P) with fast := some f2 }
          : Group P).proxies ≠ [] := hne
      cases h2 : dial 2 f2 with
      | ok c =>
        left
        exact ⟨e0, _, f1, e1, _, f2, c, rfl, hu1, rfl, h1, hu2, rfl, h2,
          by simp [DialContext, dialLoop, hf, h0, hu1, h1, hu2, h2]⟩
      | error e2 =>
        right
        obtain ⟨f3, -, hu3⟩ := fallback_some (view 2)
          { ({ u with fast := some f1 } : Group P) with fast := some f2 } hne2
        exact ⟨e0, _, f1, e1, _, f2, e2, _, rfl, hu1, rfl, h1, hu2, rfl, h2, hu3,
          by simp [DialContext, dialLoop, hf, h0, hu1, h1, hu2, h2, hu3]⟩

/-- C2: on a group with a non-empty roster and a non-nil `fast`, `DialContext`
returns, after at most 3 dials.  Attempt `i` dials the `fast` of that moment
(the initial one, then the one the preceding fallback stored).  The first
successful attempt ends the call with its (tagged) connection and a nil error,
after 1, 2 or 3 dials; after three failures the call returns no connection and
the error of the third attempt, after 3 dials. -/
theorem DialContext_attempts (view : Nat → View P) (dial : Nat → P → Except GoError Cn)
    (appendToChains : Cn → Group P → Cn) (u : Group P) (f0 : P)
    (hne : u.proxies ≠ []) (hf : u.fast = some f0) :
    ∃ out, DialContext view dial appendToChains u = some out ∧
      (dialsOf out.trace).length ≤ 3 ∧
      ((∃ c, dial 0 f0 = .ok c ∧
          out.c = some (appendToChains c u) ∧ out.err = none ∧
          dialsOf out.trace = [f0]) ∨
       (∃ e0 u1 f1 c, dial 0 f0 = .error e0 ∧
          fallback (view 0) u = some u1 ∧ u1.fast = some f1 ∧ dial 1 f1 = .ok c ∧
          out.c = some (appendToChains c u1) ∧ out.err = none ∧
          dialsOf out.trace = [f0, f1]) ∨
       (∃ e0 u1 f1 e1 u2 f2 c, dial 0 f0 = .error e0 ∧
          fallback (view 0) u = some u1 ∧ u1.fast = some f1 ∧ dial 1 f1 = .error e1 ∧
          fallback (view 1) u1 = some u2 ∧ u2.fast = some f2 ∧ dial 2 f2 = .ok c ∧
          out.c = some (appendToChains c u2) ∧ out.err = none ∧
          dialsOf out.trace = [f0, f1, f2]) ∨
       (∃ e0 u1 f1 e1 u2 f2 e2, dial 0 f0 = .error e0 ∧
          fallback (view 0) u = some u1 ∧ u1.fast = some f1 ∧ dial 1 f1 = .error e1 ∧
          fallback (view 1) u1 = some u2 ∧ u2.fast = some f2 ∧ dial 2 f2 = .error e2 ∧
          out.c = none ∧ out.err = some e2 ∧
          dialsOf out.trace = [f0, f1, f2])) := by
  rcases DialContext_cases view dial appendToChains u f0 hne hf with
    ⟨c, h0, h⟩ | ⟨e0, u1, f1, c, h0, hu1, hf1, h1, h⟩ |
    ⟨e0, u1, f1, e1, u2, f2, c, h0, hu1, hf1, h1, hu2, hf2, h2, h⟩ |
    ⟨e0, u1, f1, e1, u2, f2, e2, u3, h0, hu1, hf1, h1, hu2, hf2, h2, hu3, h⟩
  · exact ⟨_, h, by simp [dialsOf], Or.inl ⟨c, h0, rfl, rfl, by simp [dialsOf]⟩⟩
  · exact ⟨_, h, by simp [dialsOf],
      Or.inr (Or.inl ⟨e0, u1, f1, c, h0, hu1, hf1, h1, rfl, rfl, by simp [dialsOf]⟩)⟩
  · exact ⟨_, h, by simp [dialsOf],
      Or.inr (Or.inr (Or.inl ⟨e0, u1, f1, e1, u2, f2, c, h0, hu1, hf1, h1, hu2, hf2, h2,
        rfl, rfl, by simp [dialsOf]⟩))⟩
  · exact ⟨_, h, by simp [dialsOf],
      Or.inr (Or.inr (Or.inr ⟨e0, u1, f1, e1, u2, f2, e2, h0, hu1, hf1, h1, hu2, hf2, h2,
        rfl, rfl, by simp [dialsOf]⟩))⟩

/-- C2, at failure, failure, success: the call returns a connection and no error
after exactly 3 dials. -/
theorem DialContext_attempts_witness :
    (sampleGroup [0, 1, 2] (some 0)).proxies ≠ [] ∧
    (sampleGroup [0, 1, 2] (some 0)).fast = some 0 ∧
    (∃ out, DialContext (fun _ => viewDeadA 100) sampleDial sampleAppend
        (sampleGroup [0, 1, 2] (some 0)) = some out ∧
      (dialsOf out.trace).length ≤ 3) ∧
    (∃ out, DialContext (fun _ => viewDeadA 100) sampleDial sampleAppend
        (sampleGroup [0, 1, 2] (some 0)) = some out ∧
      out.c = some ["auto"] ∧ out.err = none ∧ dialsOf out.trace = [0, 2, 2]) :=
  ⟨by decide, rfl,
    (DialContext_attempts (fun _ => viewDeadA 100) sampleDial sampleAppend
      (sampleGroup [0, 1, 2] (some 0)) 0 (by decide) rfl).imp fun _ h => ⟨h.1, h.2.1⟩,
    ⟨_, rfl, by decide, rfl, by decide⟩⟩

/-- C8: on a group with a non-empty roster and a non-nil `fast`, `DialContext`
runs `fallback` once after each failed dial and not after a successful one: the
trace is dial, or dial-fallback-dial, or dial-fallback-dial-fallback-dial, or
three times dial-fallback, with 0, 1, 2, 3 fallbacks for 0, 1, 2, 3 failed
attempts.  Each retry dials the `fast` the preceding fallback stored; after a
success at the first attempt the group is unchanged; after three failures the
group is the one the fallback following the third failure produced. -/
theorem DialContext_fallbacks (view : Nat → View P) (dial : Nat → P → Except GoError Cn)
    (appendToChains : Cn → Group P → Cn) (u : Group P) (f0 : P)
    (hne : u.proxies ≠ []) (hf : u.fast = some f0) :
    ∃ out, DialContext view dial appendToChains u = some out ∧
      ((∃ c, dial 0 f0 = .ok c ∧
          out.trace = [Event.dial f0] ∧ fallbacksOf out.trace = 0 ∧ out.u = u) ∨
       (∃ e0 u1 f1 c, dial 0 f0 = .error e0 ∧
          fallback (view 0) u = some u1 ∧ u1.fast = some f1 ∧ dial 1 f1 = .ok c ∧
          out.trace = [Event.dial f0, Event.fallback, Event.dial f1] ∧
          fallbacksOf out.trace = 1 ∧ out.u = u1) ∨
       (∃ e0 u1 f1 e1 u2 f2 c, dial 0 f0 = .error e0 ∧
          fallback (view 0) u = some u1 ∧ u1.fast = some f1 ∧ dial 1 f1 = .error e1 ∧
          fallback (view 1) u1 = some u2 ∧ u2.fast = some f2 ∧ dial 2 f2 = .ok c ∧
          out.trace = [Event.dial f0, Event.fallback, Event.dial f1, Event.fallback,
                       Event.dial f2] ∧
          fallbacksOf out.trace = 2 ∧ out.u = u2) ∨
       (∃ e0 u1 f1 e1 u2 f2 e2 u3, dial 0 f0 = .error e0 ∧
          fallback (view 0) u = some u1 ∧ u1.fast = some f1 ∧ dial 1 f1 = .error e1 ∧
          fallback (view 1) u1 = some u2 ∧ u2.fast = some f2 ∧ dial 2 f2 = .error e2 ∧
          fallback (view 2) u2 = some u3 ∧
          out.trace = [Event.dial f0, Event.fallback, Event.dial f1, Event.fallback,
                       Event.dial f2, Event.fallback] ∧
          fallbacksOf out.trace = 3 ∧ out.u = u3)) := by
  rcases DialContext_cases view dial appendToChains u f0 hne hf with
    ⟨c, h0, h⟩ | ⟨e0, u1, f1, c, h0, hu1, hf1, h1, h⟩ |
    ⟨e0, u1, f1, e1, u2, f2, c, h0, hu1, hf1, h1, hu2, hf2, h2, h⟩ |
    ⟨e0, u1, f1, e1, u2, f2, e2, u3, h0, hu1, hf1, h1, hu2, hf2, h2, hu3, h⟩
  · exact ⟨_, h, Or.inl ⟨c, h0, rfl, by simp [fallbacksOf], rfl⟩⟩
  · exact ⟨_, h,
      Or.inr (Or.inl ⟨e0, u1, f1, c, h0, hu1, hf1, h1, rfl, by simp [fallbacksOf], rfl⟩)⟩
  · exact ⟨_, h,
      Or.inr (Or.inr (Or.inl ⟨e0, u1, f1, e1, u2, f2, c, h0, hu1, hf1, h1, hu2, hf2, h2,
        rfl, by simp [fallbacksOf], rfl⟩))⟩
  · exact ⟨_, h,
      Or.inr (Or.inr (Or.inr ⟨e0, u1, f1, e1, u2, f2, e2, u3, h0, hu1, hf1, h1, hu2, hf2,
        h2, hu3, rfl, by simp [fallbacksOf], rfl⟩))⟩

/-- C8, at failure, failure, success: two fallbacks, the second one's choice C
is dialled third and is `fast` on return. -/
theorem DialContext_fallbacks_witness :
    (sampleGroup [0, 1, 2] (some 0)).proxies ≠ [] ∧
    (sampleGroup [0, 1, 2] (some 0)).fast = some 0 ∧
    (∃ out, DialContext (fun _ => viewDeadA 100) sampleDial sampleAppend
        (sampleGroup [0, 1, 2] (some 0)) = some out) ∧
    (∃ out, DialContext (fun _ => viewDeadA 100) sampleDial sampleAppend
        (sampleGroup [0, 1, 2] (some 0)) = some out ∧
      out.trace = [Event.dial 0, Event.fallback, Event.dial 2, Event.fallback, Event.dial 2] ∧
      fallbacksOf out.trace = 2 ∧ out.u = sampleGroup [0, 1, 2] (some 2)) :=
  ⟨by decide, rfl,
    (DialContext_fallbacks (fun _ => viewDeadA 100) sampleDial sampleAppend
      (sampleGroup [0, 1, 2] (some 0)) 0 (by decide) rfl).imp fun _ h => h.1,
    ⟨_, rfl, by decide, by decide, by decide⟩⟩

/-! ## The probe cycle -/

/-- C5: with the flag free, when the collaborator returns the candidate `p`,
`HealthCheck` sets `fast` to `p` (nothing else changes) and returns the delay
`p` reports with a nil error; when the collaborator fails with `e`, the group is
exactly as before and `HealthCheck` returns the delay 0 with `e`.  The
collaborator is asked about the roster and the given URL, or the group's own
when the given one is empty, in the stop-at-fastest mode. -/
theorem HealthCheck_result
    (groupHealthCheck : List P → String → Bool → Except GoError (Option P))
    (view : View P) (url : String) (u : Group P) (hfree : u.once = 0) :
    (∀ p, groupHealthCheck u.proxies (if url = "" then u.rawURL else url) false
        = .ok (some p) →
      HealthCheck groupHealthCheck view url u =
        some { delay := view.lastDelay p, err := none, u := { u with fast := some p },
               trace := [Event.probe (if url = "" then u.rawURL else url) false] }) ∧
    (∀ e, groupHealthCheck u.proxies (if url = "" then u.rawURL else url) false
        = .error e →
      HealthCheck groupHealthCheck view url u =
        some { delay := 0, err := some e, u := u,
               trace := [Event.probe (if url = "" then u.rawURL else url) false] }) := by
  constructor
  · intro p hp
    cases u
    simp_all [HealthCheck, healthCheck, compareAndSwapOnce, storeOnce]
  · intro e he
    cases u
    simp_all [HealthCheck, healthCheck, compareAndSwapOnce, storeOnce]

/-- C5, on the roster A, B, C with `fast` A: a probe returning C, and a failing
probe. -/
theorem HealthCheck_result_witness :
    (sampleGroup [0, 1, 2] (some 0)).once = 0 ∧
    HealthCheck sampleProbe (viewDeadA 100) "" (sampleGroup [0, 1, 2] (some 0)) =
      some { delay := 20, err := none, u := sampleGroup [0, 1, 2] (some 2),
             trace := [Event.probe "http://www.gstatic.com/generate_204" false] } ∧
    HealthCheck sampleProbeFails (viewDeadA 100) "" (sampleGroup [0, 1, 2] (some 0)) =
      some { delay := 0, err := some (GoError.ext 7), u := sampleGroup [0, 1, 2] (some 0),
             trace := [Event.probe "http://www.gstatic.com/generate_204" false] } :=
  ⟨rfl,
    (HealthCheck_result sampleProbe (viewDeadA 100) "" (sampleGroup [0, 1, 2] (some 0))
      rfl).1 2 rfl,
    (HealthCheck_result sampleProbeFails (viewDeadA 100) "" (sampleGroup [0, 1, 2] (some 0))
      rfl).2 (GoError.ext 7) rfl⟩

/-- C6: a call of `healthCheck` entered with the flag free asks the
collaborator once and returns with the flag free, whatever the collaborator
answers; a call entered with the flag held returns `errAgain`, does not ask the
collaborator, and leaves the whole group, `fast` and the held flag included, as
it was. -/
theorem healthCheck_flag
    (groupHealthCheck : List P → String → Bool → Except GoError (Option P))
    (url : String) (checkAllInGroup : Bool) (u : Group P) :
    (u.once = 0 →
      (healthCheck groupHealthCheck url checkAllInGroup u).u.once = 0 ∧
      (healthCheck groupHealthCheck url checkAllInGroup u).trace =
        [Event.probe url checkAllInGroup]) ∧
    (u.once ≠ 0 →
      (healthCheck groupHealthCheck url checkAllInGroup u).result = .error GoError.errAgain ∧
      (healthCheck groupHealthCheck url checkAllInGroup u).trace = [] ∧
      (healthCheck groupHealthCheck url checkAllInGroup u).u = u ∧
      (healthCheck groupHealthCheck url checkAllInGroup u).u.fast = u.fast ∧
      (healthCheck groupHealthCheck url checkAllInGroup u).u.once ≠ 0) := by
  constructor
  · intro hfree
    cases hr : groupHealthCheck u.proxies url checkAllInGroup <;>
      simp [healthCheck, compareAndSwapOnce, storeOnce, hfree, hr]
  · intro hheld
    simp [healthCheck, compareAndSwapOnce, hheld]

/-- C6, on a free group with a succeeding and with a failing collaborator, and
on a group whose flag is held. -/
theorem healthCheck_flag_witness :
    (sampleGroup [0, 1, 2] (some 0)).once = 0 ∧
    ({ sampleGroup [0, 1, 2] (some 0) with once := 1 } : Group Nat).once ≠ 0 ∧
    (healthCheck sampleProbe "u" false (sampleGroup [0, 1, 2] (some 0))).u.once = 0 ∧
    (healthCheck sampleProbeFails "u" false (sampleGroup [0, 1, 2] (some 0))).u.once = 0 ∧
    (healthCheck sampleProbe "u" false
      { sampleGroup [0, 1, 2] (some 0) with once := 1 }).result = .error GoError.errAgain ∧
    (healthCheck sampleProbe "u" false
      { sampleGroup [0, 1, 2] (some 0) with once := 1 }).u.once ≠ 0 :=
  ⟨rfl, by decide,
    ((healthCheck_flag sampleProbe "u" false (sampleGroup [0, 1, 2] (some 0))).1 rfl).1,
    ((healthCheck_flag sampleProbeFails "u" false (sampleGroup [0, 1, 2] (some 0))).1 rfl).1,
    ((healthCheck_flag sampleProbe "u" false
      { sampleGroup [0, 1, 2] (some 0) with once := 1 }).2 (by decide)).1,
    ((healthCheck_flag sampleProbe "u" false
      { sampleGroup [0, 1, 2] (some 0) with once := 1 }).2 (by decide)).2.2.2.2⟩

/-! ## Construction -/

/-- What `NewURLTest` returns when it succeeds. -/
lemma NewURLTest_ok (urlToMetadata : String → Except GoError M) (option : URLTestOption)
    (proxies : List P) (u : Group P) (h : NewURLTest urlToMetadata option proxies = .ok u) :
    ∃ p0 rest, proxies = p0 :: rest ∧
      u = { base := { name := option.Name, tp := AdapterType.URLTest },
            proxies := proxies,
            rawURL := option.URL,
            fast := some p0,
            interval := wrapInt64 (option.Interval * Second),
            once := 0 } := by
  unfold NewURLTest at h
  cases hm : urlToMetadata option.URL with
  | error e => simp [hm] at h
  | ok m =>
    cases proxies with
    | nil => simp [hm] at h
    | cons p0 rest =>
      refine ⟨p0, rest, rfl, ?_⟩
      simp [hm] at h
      exact h.symm

/-- C7: `NewURLTest` returns an error, and no group, exactly when the validator
rejects the test URL or the candidate list is empty; otherwise it returns a
group whose roster is the given list, whose `fast` is its first element, whose
test URL and name are the option's, and whose probe flag is free. -/
theorem NewURLTest_spec (urlToMetadata : String → Except GoError M)
    (option : URLTestOption) (proxies : List P) :
    ((∃ e, NewURLTest urlToMetadata option proxies = .error e) ↔
      ((∃ e, urlToMetadata option.URL = .error e) ∨ proxies = [])) ∧
    (∀ m p0 rest, urlToMetadata option.URL = .ok m → proxies = p0 :: rest →
      ∃ u, NewURLTest urlToMetadata option proxies = .ok u ∧
        u.proxies = proxies ∧ u.fast = some p0 ∧ u.fast = proxies[0]? ∧
        u.rawURL = option.URL ∧ u.base.name = option.Name ∧ u.once = 0) := by
  constructor
  · constructor
    · rintro ⟨e, he⟩
      cases hm : urlToMetadata option.URL with
      | error e1 => exact Or.inl ⟨e1, rfl⟩
      | ok m =>
        right
        cases proxies with
        | nil => rfl
        | cons p0 rest => simp [NewURLTest, hm] at he
    · rintro (⟨e, he⟩ | hnil)
      · exact ⟨e, by simp [NewURLTest, he]⟩
      · cases hm : urlToMetadata option.URL with
        | error e1 => exact ⟨e1, by simp [NewURLTest, hm]⟩
        | ok m => exact ⟨_, by simp [NewURLTest, hm, hnil]; rfl⟩
  · intro m p0 rest hm hp
    subst hp
    exact ⟨_, by simp [NewURLTest, hm]; rfl, rfl, rfl, by simp, rfl, rfl, rfl⟩

/-- C7, at a valid URL with the roster A, B, C. -/
theorem NewURLTest_spec_witness :
    sampleValidator (sampleOption "http://www.gstatic.com/generate_204" 300).URL = .ok () ∧
    ∃ u, NewURLTest sampleValidator (sampleOption "http://www.gstatic.com/generate_204" 300)
        [0, 1, 2] = .ok u ∧
      u.proxies = [0, 1, 2] ∧ u.fast = some 0 ∧ u.fast = [0, 1, 2][0]? ∧
      u.rawURL = (sampleOption "http://www.gstatic.com/generate_204" 300).URL ∧
      u.base.name = (sampleOption "http://www.gstatic.com/generate_204" 300).Name ∧
      u.once = 0 :=
  ⟨rfl,
    (NewURLTest_spec sampleValidator (sampleOption "http://www.gstatic.com/generate_204" 300)
      [0, 1, 2]).2 () 0 [1, 2] rfl rfl⟩

/-- C10, as stated, fails: with `Interval = 9223372037` the construction
succeeds and the stored interval is the negative duration
`-9223372036709551616` ns, not 9223372037 seconds. -/
theorem NewURLTest_interval_overflow :
    ∃ u : Group Nat,
      NewURLTest sampleValidator (sampleOption "http://www.gstatic.com/generate_204" 9223372037)
        [0, 1, 2] = .ok u ∧
      u.interval = -9223372036709551616 ∧
      u.interval ≠ 9223372037 * Second :=
  ⟨_, rfl, by decide, by decide⟩

/-- C10, amended: `NewURLTest` does not constrain the probe interval.  It
accepts `Interval = 0` with a valid URL and a non-empty roster, the stored
interval is then 0 and `time.NewTicker` in `loop` panics on it.  For every
accepted input the stored interval is `Interval * time.Second` reduced to
`int64`; it is exactly `Interval` seconds when
`-9223372036 ≤ Interval ≤ 9223372036`, and it is then non-positive whenever
`Interval ≤ 0`. -/
theorem NewURLTest_interval :
    (∃ u : Group Nat,
      NewURLTest sampleValidator (sampleOption "http://www.gstatic.com/generate_204" 0)
        [0, 1, 2] = .ok u ∧
      u.interval = 0 ∧ ¬ 0 < u.interval ∧ loopTicker u = none) ∧
    (∀ (Q N : Type) (urlToMetadata : String → Except GoError N) (option : URLTestOption)
        (proxies : List Q) (u : Group Q),
      NewURLTest urlToMetadata option proxies = .ok u →
      u.interval = wrapInt64 (option.Interval * Second) ∧
      (-9223372036 ≤ option.Interval → option.Interval ≤ 9223372036 →
        u.interval = option.Interval * Second ∧
        (option.Interval ≤ 0 → u.interval ≤ 0 ∧ loopTicker u = none))) := by
  refine ⟨⟨_, rfl, by decide, by decide, by decide⟩, ?_⟩
  intro Q N urlToMetadata option proxies u h
  obtain ⟨p0, rest, -, hu⟩ := NewURLTest_ok urlToMetadata option proxies u h
  have hi : u.interval = wrapInt64 (option.Interval * Second) := by rw [hu]
  refine ⟨hi, ?_⟩
  intro hlo hhi
  have hexact : u.interval = option.Interval * Second := by
    rw [hi]
    unfold wrapInt64 Second
    omega
  refine ⟨hexact, ?_⟩
  intro hle
  have hnp : u.interval ≤ 0 := by
    rw [hexact]
    unfold Second
    omega
  refine ⟨hnp, ?_⟩
  unfold loopTicker
  rw [if_neg (by omega)]

/-- C10, amended, at `Interval = -5`: the stored interval is minus five seconds
and the ticker of `loop` panics. -/
theorem NewURLTest_interval_witness :
    ∃ u : Group Nat,
      NewURLTest sampleValidator (sampleOption "http://www.gstatic.com/generate_204" (-5))
        [0, 1, 2] = .ok u ∧
      u.interval = (sampleOption "http://www.gstatic.com/generate_204" (-5)).Interval * Second ∧
      u.interval ≤ 0 ∧ loopTicker u = none :=
  ⟨_, rfl,
    ((NewURLTest_interval.2 Nat Unit sampleValidator
      (sampleOption "http://www.gstatic.com/generate_204" (-5)) [0, 1, 2] _ rfl).2
      (by decide) (by decide)).1,
    (((NewURLTest_interval.2 Nat Unit sampleValidator
      (sampleOption "http://www.gstatic.com/generate_204" (-5)) [0, 1, 2] _ rfl).2
      (by decide) (by decide)).2 (by decide))⟩

/-! ## Interleaved calls -/

/-- Counting after one element of a list is replaced: the old element's
contribution goes, the new one's comes. -/
lemma countP_set_add {α : Type} (holds : α → Bool) (xs : List α) (i : Nat) (old new : α)
    (h : xs[i]? = some old) :
    List.countP holds xs + (if holds new then 1 else 0) =
      List.countP holds (List.set xs i new) + (if holds old then 1 else 0) := by
  induction xs generalizing i with
  | nil => simp at h
  | cons y ys ih =>
    cases i with
    | zero =>
      simp at h
      subst h
      simp [List.countP_cons]
      omega
    | succ k =>
      have hk := ih k (by simpa using h)
      simp [List.countP_cons]
      omega

/-- A `fallback` that returns has only changed `fast`, to a member of the
roster. -/
lemma fallback_of_some (v : View P) (u u1 : Group P) (h : fallback v u = some u1) :
    ∃ f, f ∈ u.proxies ∧ u1 = { u with fast := some f } := by
  have hne : u.proxies ≠ [] := by
    intro hnil
    simp [fallback, hnil] at h
  obtain ⟨f, hf, hu⟩ := fallback_some v u hne
  rw [hu] at h
  exact ⟨f, hf, (Option.some.inj h).symm⟩

/-- The loop of `DialContext` leaves the flag and the roster alone, and `fast`
either as it was or at a member of the roster. -/
lemma dialLoop_preserves (view : Nat → View P) (dial : Nat → P → Except GoError Cn)
    (appendToChains : Cn → Group P → Cn) (n : Nat) :
    ∀ (i : Nat) (acc out : DialOut P Cn),
      dialLoop view dial appendToChains i n acc = some out →
      out.u.once = acc.u.once ∧ out.u.proxies = acc.u.proxies ∧
      (out.u.fast = acc.u.fast ∨ ∃ f ∈ acc.u.proxies, out.u.fast = some f) := by
  induction n with
  | zero =>
    intro i acc out h
    simp [dialLoop] at h
    subst h
    exact ⟨rfl, rfl, Or.inl rfl⟩
  | succ n ih =>
    intro i acc out h
    unfold dialLoop at h
    cases hf : acc.u.fast with
    | none => simp [hf] at h
    | some f =>
      cases hd : dial i f with
      | ok c =>
        simp [hf, hd] at h
        subst h
        exact ⟨rfl, rfl, Or.inl hf⟩
      | error e =>
        cases hfb : fallback (view i) acc.u with
        | none => simp [hf, hd, hfb] at h
        | some u1 =>
          simp [hf, hd, hfb] at h
          obtain ⟨g, hg, hu1⟩ := fallback_of_some (view i) acc.u u1 hfb
          obtain ⟨h1, h2, h3⟩ := ih (i + 1) _ out h
          simp only [hu1] at h1 h2 h3
          refine ⟨h1, h2, Or.inr ?_⟩
          rcases h3 with h3 | ⟨f2, hf2, h3⟩
          · exact ⟨g, hg, h3⟩
          · exact ⟨f2, hf2, h3⟩

/-- On a group with a non-empty roster and a non-nil `fast`, `DialContext`
returns. -/
lemma DialContext_some (view : Nat → View P) (dial : Nat → P → Except GoError Cn)
    (appendToChains : Cn → Group P → Cn) (u : Group P) (f0 : P)
    (hne : u.proxies ≠ []) (hf : u.fast = some f0) :
    ∃ out, DialContext view dial appendToChains u = some out := by
  rcases DialContext_cases view dial appendToChains u f0 hne hf with
    ⟨_, _, h⟩ | ⟨_, _, _, _, _, _, _, _, h⟩ |
    ⟨_, _, _, _, _, _, _, _, _, _, _, _, _, _, h⟩ |
    ⟨_, _, _, _, _, _, _, _, _, _, _, _, _, _, _, _, h⟩ <;> exact ⟨_, h⟩

/-- One step of one call keeps the flag equal to the number of holders. -/
lemma advanceCall_flagMatches (s : Sys P) (i : Nat) (st : Stage P)
    (hst : s.calls[i]? = some st) (hinv : s.flagMatches) :
    Sys.flagMatches { u := (advanceCall s.u st).1, calls := s.calls.set i (advanceCall s.u st).2 } := by
  have hcount := fun b => countP_set_add Stage.holding s.calls i st b hst
  unfold Sys.flagMatches Sys.holders at *
  cases st with
  | entry url ca =>
    have hc := hcount (.probing url ca)
    have hr := hcount (.returned (.error GoError.errAgain))
    simp only [Stage.holding] at hc hr
    rcases hinv with ⟨h0, hh⟩ | ⟨h1, hh⟩
    · right
      simp [advanceCall, compareAndSwapOnce, h0]
      simp at hc
      omega
    · right
      simp [advanceCall, compareAndSwapOnce, h1]
      simp at hr
      omega
  | probing url ca =>
    have hc := hcount (.probing url ca)
    simp only [Stage.holding] at hc
    dsimp only [advanceCall]
    simp at hc
    rcases hinv with ⟨h0, hh⟩ | ⟨h1, hh⟩
    · left; exact ⟨h0, by omega⟩
    · right; exact ⟨h1, by omega⟩
  | probed r =>
    have hc := hcount (.leaving r)
    simp only [Stage.holding] at hc
    simp at hc
    cases r with
    | ok fast =>
      dsimp only [advanceCall]
      rcases hinv with ⟨h0, hh⟩ | ⟨h1, hh⟩
      · left; exact ⟨h0, by omega⟩
      · right; exact ⟨h1, by omega⟩
    | error e =>
      dsimp only [advanceCall]
      rcases hinv with ⟨h0, hh⟩ | ⟨h1, hh⟩
      · left; exact ⟨h0, by omega⟩
      · right; exact ⟨h1, by omega⟩
  | leaving r =>
    have hc := hcount (.returned r)
    simp only [Stage.holding] at hc
    simp at hc
    have hpos : 0 < List.countP Stage.holding s.calls := by
      apply List.countP_pos_iff.mpr
      exact ⟨_, List.getElem?_mem hst, rfl⟩
    left
    dsimp only [advanceCall, storeOnce]
    rcases hinv with ⟨h0, hh⟩ | ⟨h1, hh⟩
    · omega
    · exact ⟨rfl, by omega⟩
  | returned r =>
    have hc := hcount (.returned r)
    simp only [Stage.holding] at hc
    simp at hc
    dsimp only [advanceCall]
    rcases hinv with ⟨h0, hh⟩ | ⟨h1, hh⟩
    · left; exact ⟨h0, by omega⟩
    · right; exact ⟨h1, by omega⟩

/-- Every action keeps the flag equal to the number of holders. -/
lemma step_flagMatches (s s1 : Sys P) (a : Action P Cn Pk) (h : s.step a = some s1)
    (hinv : s.flagMatches) : s1.flagMatches := by
  cases a with
  | HealthCheck url =>
    simp only [Sys.step, Option.some.injEq] at h
    subst h
    simpa [Sys.flagMatches, Sys.holders, Stage.holding] using hinv
  | tick =>
    simp only [Sys.step, Option.some.injEq] at h
    subst h
    simpa [Sys.flagMatches, Sys.holders, Stage.holding] using hinv
  | advance i =>
    cases hst : s.calls[i]? with
    | none =>
      simp only [Sys.step, hst, Option.some.injEq] at h
      subst h
      exact hinv
    | some st =>
      simp only [Sys.step, hst, Option.some.injEq] at h
      subst h
      exact advanceCall_flagMatches s i st hst hinv
  | probeReturns i r =>
    simp only [Sys.step] at h
    split at h
    · rename_i url ca hst
      simp only [Option.some.injEq] at h
      subst h
      have hc := countP_set_add Stage.holding s.calls i (.probing url ca) (.probed r) hst
      simp only [Stage.holding] at hc
      unfold Sys.flagMatches Sys.holders at *
      dsimp only
      rcases hinv with ⟨h0, hh⟩ | ⟨h1, hh⟩
      · left; exact ⟨h0, by omega⟩
      · right; exact ⟨h1, by omega⟩
    · simp only [Option.some.injEq] at h
      subst h
      exact hinv
  | fallback v =>
    cases hfb : fallback v s.u with
    | none => simp [Sys.step, hfb] at h
    | some u1 =>
      simp only [Sys.step, hfb, Option.some.injEq] at h
      subst h
      obtain ⟨f, -, hu1⟩ := fallback_of_some v s.u u1 hfb
      subst hu1
      exact hinv
  | DialContext view dial appendToChains =>
    cases hd : DialContext view dial appendToChains s.u with
    | none => simp [Sys.step, hd] at h
    | some out =>
      simp only [Sys.step, hd, Option.some.injEq] at h
      subst h
      obtain ⟨h1, -, -⟩ := dialLoop_preserves view dial appendToChains 3 0 _ out hd
      unfold Sys.flagMatches Sys.holders at *
      dsimp only at h1 ⊢
      rw [h1]
      exact hinv
  | DialUDP dialUDP appendToChains =>
    cases hd : DialUDP dialUDP appendToChains s.u with
    | none => simp [Sys.step, hd] at h
    | some out =>
      simp only [Sys.step, hd, Option.some.injEq] at h
      subst h
      exact hinv
  | SupportUDP supportUDP =>
    cases hd : SupportUDP supportUDP s.u with
    | none => simp [Sys.step, hd] at h
    | some out =>
      simp only [Sys.step, hd, Option.some.injEq] at h
      subst h
      exact hinv
  | MarshalJSON name typeString =>
    cases hd : MarshalJSON name typeString s.u with
    | none => simp [Sys.step, hd] at h
    | some out =>
      simp only [Sys.step, hd, Option.some.injEq] at h
      subst h
      exact hinv

/-- Every run keeps the flag equal to the number of holders. -/
lemma run_flagMatches (acts : List (Action P Cn Pk)) :
    ∀ (s s1 : Sys P), Sys.run acts s = some s1 → s.flagMatches → s1.flagMatches := by
  induction acts with
  | nil =>
    intro s s1 h hinv
    simp only [Sys.run, Option.some.injEq] at h
    subst h
    exact hinv
  | cons a rest ih =>
    intro s s1 h hinv
    cases hs : s.step a with
    | none => simp [Sys.run, hs] at h
    | some s2 =>
      simp only [Sys.run, hs] at h
      exact ih s2 s1 h (step_flagMatches s s2 a hs hinv)

/-- One step of one call keeps `fast` in the roster. -/
lemma advanceCall_inRoster (roster : List P) (s : Sys P) (i : Nat) (st : Stage P)
    (hst : s.calls[i]? = some st) (hinv : s.inRoster roster) :
    Sys.inRoster roster
      { u := (advanceCall s.u st).1, calls := s.calls.set i (advanceCall s.u st).2 } := by
  obtain ⟨hp, hf, hw⟩ := hinv
  have hmem : st ∈ s.calls := List.getElem?_mem hst
  have hset : ∀ (b : Stage P), (∀ r, b ≠ Stage.probed (.ok r)) →
      ∀ r, Stage.probed (.ok r) ∈ s.calls.set i b → ∃ p ∈ roster, r = some p := by
    intro b hb r hr
    rcases List.mem_or_eq_of_mem_set hr with h | h
    · exact hw r h
    · exact absurd h.symm (hb r)
  cases st with
  | entry url ca =>
    by_cases h0 : s.u.once = 0
    · simp only [advanceCall, compareAndSwapOnce, h0, if_true]
      exact ⟨hp, hf, hset _ (by intro r; simp)⟩
    · simp only [advanceCall, compareAndSwapOnce, h0, if_false]
      exact ⟨hp, hf, hset _ (by intro r; simp)⟩
  | probing url ca =>
    exact ⟨hp, hf, hset _ (by intro r; simp [advanceCall])⟩
  | probed r =>
    cases r with
    | ok fast =>
      obtain ⟨p, hpr, hfast⟩ := hw fast hmem
      exact ⟨hp, ⟨p, hpr, hfast⟩, hset _ (by intro r; simp [advanceCall])⟩
    | error e =>
      exact ⟨hp, hf, hset _ (by intro r; simp [advanceCall])⟩
  | leaving r =>
    exact ⟨hp, hf, hset _ (by intro r; simp [advanceCall])⟩
  | returned r =>
    exact ⟨hp, hf, hset _ (by intro r; simp [advanceCall])⟩

/-- Every action whose collaborator answer is a candidate runs without panic and
keeps `fast` in the roster. -/
lemma step_inRoster (roster : List P) (s : Sys P) (a : Action P Cn Pk)
    (hinv : s.inRoster roster) (ha : a.returnsCandidate roster) :
    ∃ s1, s.step a = some s1 ∧ s1.inRoster roster := by
  obtain ⟨hp, ⟨f, hfr, hf⟩, hw⟩ := hinv
  have hne : s.u.proxies ≠ [] := by
    rw [hp]
    exact List.ne_nil_of_mem hfr
  have hinv : s.inRoster roster := ⟨hp, ⟨f, hfr, hf⟩, hw⟩
  have happ : ∀ (b : Stage P), (∀ r, b ≠ Stage.probed (.ok r)) →
      Sys.inRoster roster { s with calls := s.calls ++ [b] } := by
    intro b hb
    refine ⟨hp, ⟨f, hfr, hf⟩, ?_⟩
    intro r hr
    rcases List.mem_append.mp hr with h | h
    · exact hw r h
    · exact absurd (List.mem_singleton.mp h).symm (hb r)
  cases a with
  | HealthCheck url => exact ⟨_, rfl, happ _ (by intro r; simp)⟩
  | tick => exact ⟨_, rfl, happ _ (by intro r; simp)⟩
  | advance i =>
    cases hst : s.calls[i]? with
    | none => exact ⟨s, by simp [Sys.step, hst], hinv⟩
    | some st =>
      exact ⟨_, by simp only [Sys.step, hst], advanceCall_inRoster roster s i st hst hinv⟩
  | probeReturns i r =>
    simp only [Sys.step]
    split
    · refine ⟨_, rfl, hp, ⟨f, hfr, hf⟩, ?_⟩
      intro r1 hr1
      rcases List.mem_or_eq_of_mem_set hr1 with h | h
      · exact hw r1 h
      · simp only [Stage.probed.injEq] at h
        subst h
        exact ha
    · exact ⟨s, rfl, hinv⟩
  | fallback v =>
    obtain ⟨g, hg, hfb⟩ := fallback_some v s.u hne
    exact ⟨{ s with u := { s.u with fast := some g } }, by simp only [Sys.step, hfb],
      hp, ⟨g, hp ▸ hg, rfl⟩, hw⟩
  | DialContext view dial appendToChains =>
    obtain ⟨out, hd⟩ := DialContext_some view dial appendToChains s.u f hne hf
    obtain ⟨-, h2, h3⟩ := dialLoop_preserves view dial appendToChains 3 0 _ out hd
    dsimp only at h2 h3
    refine ⟨{ s with u := out.u }, by simp only [Sys.step, hd], h2.trans hp, ?_, hw⟩
    rcases h3 with h3 | ⟨g, hg, h3⟩
    · exact ⟨f, hfr, h3.trans hf⟩
    · exact ⟨g, hp ▸ hg, h3⟩
  | DialUDP dialUDP appendToChains =>
    refine ⟨s, ?_, hinv⟩
    simp only [Sys.step, DialUDP, hf]
    cases dialUDP f <;> rfl
  | SupportUDP supportUDP =>
    exact ⟨s, by simp only [Sys.step, SupportUDP, hf], hinv⟩
  | MarshalJSON name typeString =>
    exact ⟨s, by simp only [Sys.step, MarshalJSON, Now, hf], hinv⟩

/-- Every run whose collaborator answers are candidates ends without panic and
keeps `fast` in the roster. -/
lemma run_inRoster (roster : List P) (acts : List (Action P Cn Pk)) :
    ∀ (s : Sys P), s.inRoster roster → (∀ a ∈ acts, a.returnsCandidate roster) →
      ∃ s1, Sys.run acts s = some s1 ∧ s1.inRoster roster := by
  induction acts with
  | nil =>
    intro s hinv _
    exact ⟨s, rfl, hinv⟩
  | cons a rest ih =>
    intro s hinv ha
    obtain ⟨s2, hs, hinv2⟩ := step_inRoster roster s a hinv (ha a (List.mem_cons_self _ _))
    obtain ⟨s1, hr, hinv1⟩ := ih s2 hinv2 (fun b hb => ha b (List.mem_cons_of_mem _ hb))
    exact ⟨s1, by simp only [Sys.run, hs, hr], hinv1⟩

/-- The steps of one call, taken without interruption, are the method
`healthCheck`: the swap, the answer `r` of the collaborator, the write of
`fast`, the deferred store give the group and the result of `healthCheck` run
with a collaborator answering `r`; a call turned away at the swap likewise. -/
lemma healthCheck_as_steps
    (groupHealthCheck : List P → String → Bool → Except GoError (Option P))
    (url : String) (checkAllInGroup : Bool) (u : Group P) :
    (u.once = 0 →
      (advanceCall u (.entry url checkAllInGroup)).2 = .probing url checkAllInGroup ∧
      (advanceCall
        (advanceCall (advanceCall u (.entry url checkAllInGroup)).1
          (.probed (groupHealthCheck u.proxies url checkAllInGroup))).1
        (advanceCall (advanceCall u (.entry url checkAllInGroup)).1
          (.probed (groupHealthCheck u.proxies url checkAllInGroup))).2) =
        ((healthCheck groupHealthCheck url checkAllInGroup u).u,
          .returned (healthCheck groupHealthCheck url checkAllInGroup u).result)) ∧
    (u.once ≠ 0 →
      advanceCall u (.entry url checkAllInGroup) =
        ((healthCheck groupHealthCheck url checkAllInGroup u).u,
          .returned (healthCheck groupHealthCheck url checkAllInGroup u).result)) := by
  constructor
  · intro hfree
    cases hr : groupHealthCheck u.proxies url checkAllInGroup <;>
      simp [advanceCall, healthCheck, compareAndSwapOnce, storeOnce, hfree, hr]
  · intro hheld
    simp [advanceCall, healthCheck, compareAndSwapOnce, hheld]

/-- C3: from a group `NewURLTest` returned, every sequence of actions (calls
of `HealthCheck` and ticks of `loop` interleaved step by step, with a succeeding
or failing collaborator or turned away with `errAgain`; `fallback`,
`DialContext`, `DialUDP`, `SupportUDP`, `MarshalJSON`) in which the collaborator,
when it succeeds, returns one of the candidates, runs without panic and ends in a
state whose roster is the one given at construction and whose `fast` is non-nil
and a member of it. -/
theorem fast_always_in_roster (urlToMetadata : String → Except GoError M)
    (option : URLTestOption) (proxies : List P) (u : Group P)
    (hnew : NewURLTest urlToMetadata option proxies = .ok u)
    (acts : List (Action P Cn Pk)) (hcoll : ∀ a ∈ acts, a.returnsCandidate proxies) :
    ∃ s, Sys.run acts { u := u, calls := [] } = some s ∧
      s.u.proxies = proxies ∧ ∃ p ∈ proxies, s.u.fast = some p := by
  obtain ⟨p0, rest, hp, hu⟩ := NewURLTest_ok urlToMetadata option proxies u hnew
  have hinit : Sys.inRoster proxies { u := u, calls := [] } := by
    refine ⟨by rw [hu], ⟨p0, by rw [hp]; exact List.mem_cons_self _ _, by rw [hu]⟩, ?_⟩
    intro r hr
    simp at hr
  obtain ⟨s, hrun, hs, hf, -⟩ := run_inRoster proxies acts _ hinit hcoll
  exact ⟨s, hrun, hs, hf⟩

/-- C3, on the roster A, B, C along `sampleLife`. -/
theorem fast_always_in_roster_witness :
    (∀ a ∈ sampleLife, a.returnsCandidate [0, 1, 2]) ∧
    ∃ s, Sys.run sampleLife
        { u := { base := { name := "auto", tp := AdapterType.URLTest },
                 proxies := [0, 1, 2],
                 rawURL := "http://www.gstatic.com/generate_204",
                 fast := some 0,
                 interval := wrapInt64 (300 * Second),
                 once := 0 },
          calls := [] } = some s ∧
      s.u.proxies = [0, 1, 2] ∧ ∃ p ∈ [0, 1, 2], s.u.fast = some p :=
  have hcoll : ∀ a ∈ sampleLife, a.returnsCandidate [0, 1, 2] := by
    intro a ha
    simp only [sampleLife, List.mem_cons, List.mem_singleton, List.not_mem_nil,
      or_false] at ha
    rcases ha with h | h | h | h | h | h | h | h | h | h | h <;> subst h <;>
      simp [Action.returnsCandidate]
  ⟨hcoll,
    fast_always_in_roster sampleValidator
      (sampleOption "http://www.gstatic.com/generate_204" 300) [0, 1, 2] _ rfl
      sampleLife hcoll⟩

/-- C4: in every state reached from a group with a free flag by any
interleaving of calls of `healthCheck` (and of the other operations), at most
one call is between its successful compare-and-swap and its deferred store, at
most one is inside the collaborator, and the flag is 1 exactly when there is
such a call.  A call whose compare-and-swap runs while another call holds the
flag returns `errAgain` in that very step, leaving the group untouched; a call
whose compare-and-swap runs while no call holds the flag acquires it. -/
theorem healthCheck_mutual_exclusion (u0 : Group P) (h0 : u0.once = 0)
    (acts : List (Action P Cn Pk)) (s : Sys P)
    (hrun : Sys.run acts { u := u0, calls := [] } = some s) :
    s.holders ≤ 1 ∧ s.inProbe ≤ 1 ∧ s.u.once = (s.holders : Int) ∧
    (∀ (i : Nat) (url : String) (ca : Bool), s.calls[i]? = some (.entry url ca) →
      s.holders = 1 →
      s.step (Action.advance i : Action P Cn Pk) =
        some { u := s.u,
               calls := s.calls.set i (.returned (.error GoError.errAgain)) }) ∧
    (∀ (i : Nat) (url : String) (ca : Bool), s.calls[i]? = some (.entry url ca) →
      s.holders = 0 →
      s.step (Action.advance i : Action P Cn Pk) =
        some { u := { s.u with once := 1 },
               calls := s.calls.set i (.probing url ca) }) := by
  have hinit : Sys.flagMatches ({ u := u0, calls := [] } : Sys P) :=
    Or.inl ⟨h0, rfl⟩
  have hinv := run_flagMatches acts _ s hrun hinit
  have hle : s.inProbe ≤ s.holders := by
    unfold Sys.inProbe Sys.holders
    apply List.countP_mono_left
    intro x _ hx
    cases x <;> simp_all [Stage.inCollaborator, Stage.holding]
  unfold Sys.flagMatches at hinv
  refine ⟨by omega, by omega, by omega, ?_, ?_⟩
  · intro i url ca hst hone
    have h1 : s.u.once = 1 := by omega
    simp [Sys.step, hst, advanceCall, compareAndSwapOnce, h1]
  · intro i url ca hst hzero
    have h1 : s.u.once = 0 := by omega
    simp [Sys.step, hst, advanceCall, compareAndSwapOnce, h1]

/-- C4, on three probe cycles racing for the flag: the one that swaps first
proceeds to the collaborator, the other two return `errAgain`. -/
theorem healthCheck_mutual_exclusion_witness :
    (sampleGroup [0, 1, 2] (some 0)).once = 0 ∧
    Sys.run sampleRace { u := sampleGroup [0, 1, 2] (some 0), calls := [] }
      = some sampleRaceEnd ∧
    sampleRaceEnd.holders ≤ 1 ∧ sampleRaceEnd.inProbe ≤ 1 ∧
    sampleRaceEnd.calls.countP
      (fun st => match st with
        | .returned (.error GoError.errAgain) => true
        | _ => false) = 2 :=
  ⟨rfl, rfl,
    (healthCheck_mutual_exclusion (sampleGroup [0, 1, 2] (some 0)) rfl sampleRace
      sampleRaceEnd rfl).1,
    (healthCheck_mutual_exclusion (sampleGroup [0, 1, 2] (some 0)) rfl sampleRace
      sampleRaceEnd rfl).2.1,
    rfl⟩

end URLTest
